import Mathlib

/-!
Shallow embedding of `src/src/thermistor_Mux.cpp` (thermistor multiplexer
firmware: cyclic acquisition, running-update smoothing, two-point linear
calibration persisted in EEPROM).

Modelling conventions:
* C `float` values are modelled as exact rationals (`ℚ`); the algorithms use
  only +, -, *, / so every step is exact.
* The EEPROM is a function `ℕ → Cell`.  `EEPROM.write` stores one byte.
  `EEPROM.put` of a 4-byte float is modelled symbolically: each of the four
  bytes it covers becomes `Cell.fbyte q i` (the i-th byte of the encoding of
  `q`), so byte-granularity effects (which bytes a write clobbers) are exact
  without committing to an IEEE bit encoding.  `EEPROM.get` recovers `q` when
  the four cells are the four bytes of one `put`, and is given the arbitrary
  value 0 on inconsistent cells (the C code would read garbage there).
  Reading a single byte of a float encoding yields the out-of-range marker
  256: the program never does this on a path the claims depend on.
* EEPROM writes performed by `cal_thermistor` are recorded as an ordered
  trace of `WEvent`s (needed for ordering claims about the calibrated flag);
  `applyTrace` turns a trace into the resulting EEPROM state.
* Per-channel arrays (`raw_Low`, `raw_High`, the running temperatures) are
  functions `ℕ → ℚ`, updated pointwise exactly where the C loops update them.
-/

/-- `NUMBER_OF_THERMISTORS` from `thermistorMux_global.h`: 32 mosfets, each
with one thermistor. -/
def NUMBER_OF_THERMISTORS : ℕ := 32

/-- One EEPROM byte cell: either a plain byte written by `EEPROM.write`, or
the `i`-th byte (`i < 4`) of a 4-byte float written by `EEPROM.put`, carrying
the float's value symbolically as an exact rational. -/
inductive Cell where
  | byte (b : ℕ)
  | fbyte (q : ℚ) (i : ℕ)
deriving DecidableEq

/-- One EEPROM write event: `wbyte a b` is `EEPROM.write(a, b)` (one byte),
`wput a q` is `EEPROM.put(a, (float)q)` (four bytes at `a..a+3`). -/
inductive WEvent where
  | wbyte (a b : ℕ)
  | wput (a : ℕ) (q : ℚ)
deriving DecidableEq

/-- `EEPROM.write(a, b)`: store one byte. -/
def eewrite (E : ℕ → Cell) (a b : ℕ) : ℕ → Cell :=
  fun x => if x = a then Cell.byte b else E x

/-- `EEPROM.put(a, q)` for a 4-byte float: store the four encoding bytes at
`a`, `a+1`, `a+2`, `a+3`. -/
def wputE (E : ℕ → Cell) (a : ℕ) (q : ℚ) : ℕ → Cell :=
  fun x =>
    if x = a then Cell.fbyte q 0
    else if x = a + 1 then Cell.fbyte q 1
    else if x = a + 2 then Cell.fbyte q 2
    else if x = a + 3 then Cell.fbyte q 3
    else E x

/-- Effect of one write event on the EEPROM. -/
def applyW (E : ℕ → Cell) : WEvent → (ℕ → Cell)
  | WEvent.wbyte a b => eewrite E a b
  | WEvent.wput a q => wputE E a q

/-- Effect of a trace of write events, oldest first. -/
def applyTrace (E : ℕ → Cell) (tr : List WEvent) : ℕ → Cell :=
  tr.foldl applyW E

/-- The set of byte addresses a write event modifies. -/
def WEvent.touches : WEvent → ℕ → Prop
  | WEvent.wbyte a _, x => x = a
  | WEvent.wput a _, x => a ≤ x ∧ x < a + 4

/-- `EEPROM.read(a)`: read one byte.  A byte that is part of a float encoding
is modelled by the out-of-range marker 256 (its concrete value is not
determined by the model; no claim depends on it). -/
def eeread (E : ℕ → Cell) (a : ℕ) : ℕ :=
  match E a with
  | Cell.byte b => b
  | Cell.fbyte _ _ => 256

/-- `EEPROM.get(a)` of a 4-byte float: recovers `q` when the four cells at
`a..a+3` are exactly the four bytes of one `put(q)`; otherwise the cells hold
unrelated garbage and the model returns 0. -/
def eeget (E : ℕ → Cell) (a : ℕ) : ℚ :=
  match E a with
  | Cell.fbyte q 0 =>
      if E (a + 1) = Cell.fbyte q 1 ∧ E (a + 2) = Cell.fbyte q 2 ∧
          E (a + 3) = Cell.fbyte q 3 then q else 0
  | _ => 0

/-- In-memory calibration state: the file-scope globals `ref_Low`,
`ref_High`, `raw_Low[]`, `raw_High[]`, `calibrated` of `thermistor_Mux.cpp`. -/
@[ext] structure CalMem where
  ref_Low : ℚ
  ref_High : ℚ
  raw_Low : ℕ → ℚ
  raw_High : ℕ → ℚ
  calibrated : Bool

/-- The globals' static initialisation: everything zero, not calibrated. -/
def initMem : CalMem :=
  { ref_Low := 0, ref_High := 0, raw_Low := fun _ => 0, raw_High := fun _ => 0,
    calibrated := false }

/-- The `for (mosfetRef = 0; ...)` loop of `cal_thermistor`, lines 110-147:
one iteration selects channel `m`, reads `raws m`, stores the reference and
raw value for calibration point `tempNum`, and appends the EEPROM `put`s the
iteration performs (the two reference temperatures are written only when
`eeAddr == 1`, i.e. in the first iteration).  `fuel` is the number of
remaining iterations. -/
def calLoop (t : ℚ) (tempNum : ℕ) (raws : ℕ → ℚ) :
    CalMem → ℕ → ℕ → List WEvent → ℕ → CalMem × ℕ × List WEvent
  | st, _, eeAddr, tr, 0 => (st, eeAddr, tr)
  | st, m, eeAddr, tr, f + 1 =>
      let st1 : CalMem :=
        if tempNum = 1 then
          { st with ref_Low := t,
                    raw_Low := fun j => if j = m then raws m else st.raw_Low j }
        else if tempNum = 2 then
          { st with ref_High := t,
                    raw_High := fun j => if j = m then raws m else st.raw_High j }
        else st
      let p : ℕ × List WEvent :=
        if eeAddr = 1 then
          (9, tr ++ [WEvent.wput 1 st1.ref_Low, WEvent.wput 5 st1.ref_High])
        else (eeAddr, tr)
      calLoop t tempNum raws st1 (m + 1) (p.1 + 8)
        (p.2 ++ [WEvent.wput p.1 (st1.raw_Low m), WEvent.wput (p.1 + 4) (st1.raw_High m)]) f

/-- `cal_thermistor(ref_temp, tempNum)` (lines 104-159), with the raw ADC
reading of channel `m` given by `raws m`.  Returns the new in-memory state,
the ordered EEPROM write trace, and the C return value.  For `tempNum == 2`
the final act is `EEPROM.write(0, 0x01)` and `calibrated = true`. -/
def cal_thermistor (st : CalMem) (ref_temp : ℚ) (tempNum : ℕ) (raws : ℕ → ℚ) :
    CalMem × List WEvent × Bool :=
  let r := calLoop ref_temp tempNum raws st 0 1 [] NUMBER_OF_THERMISTORS
  if tempNum = 2 then
    ({ r.1 with calibrated := true }, r.2.2 ++ [WEvent.wbyte 0 1], true)
  else (r.1, r.2.2, false)

/-- The `while (eeAddr_last < 64)` loop of `clear_cal_data` (lines 83-90):
each iteration does `EEPROM.write(eeAddr, 0x00)` twice, advancing `eeAddr`
by `sizeof(float) = 4` after each write — so only the FIRST byte of each
4-byte float field is cleared. -/
def clearLoop (E : ℕ → Cell) (eeAddr : ℕ) : ℕ → (ℕ → Cell)
  | 0 => E
  | f + 1 => clearLoop (eewrite (eewrite E eeAddr 0) (eeAddr + 4) 0) (eeAddr + 8) f

/-- `clear_cal_data()` (lines 69-101): writes the byte 0x00 to address 0, to
address 1 (first byte of `ref_Low`), to address 5 (first byte of `ref_High`),
and to the first byte of each per-channel raw field; zeroes all in-memory
calibration data; returns true. -/
def clear_cal_data (_st : CalMem) (E : ℕ → Cell) : CalMem × (ℕ → Cell) × Bool :=
  let E1 := eewrite E 0 0
  let E2 := eewrite E1 1 0
  let E3 := eewrite E2 5 0
  let E4 := clearLoop E3 9 NUMBER_OF_THERMISTORS
  (initMem, E4, true)

/-- The EEPROM restore block of `setup()` (lines 190-210): if the byte at
address 0 is `0x01`, set `calibrated`, `get` `ref_Low` at 1, `ref_High` at 5,
and the 32 raw low/high pairs at `9 + 8m` / `13 + 8m`; otherwise nothing is
read and the globals keep their zero initialisation. -/
def loadCal (E : ℕ → Cell) : CalMem :=
  if eeread E 0 = 1 then
    { calibrated := true
      ref_Low := eeget E 1
      ref_High := eeget E 5
      raw_Low := fun m => if m < NUMBER_OF_THERMISTORS then eeget E (9 + 8 * m) else 0
      raw_High := fun m => if m < NUMBER_OF_THERMISTORS then eeget E (13 + 8 * m) else 0 }
  else initMem

/-- `setup_successful = hardwareID_init() && initTeensySPI() && initADC() &&
network_init()` (line 180). -/
def setup_successful (hw spi adc net : Bool) : Bool :=
  hw && spi && adc && net

/-- The running-update step of `loop()` (lines 237-242 for channels, 255-260
for the internal temperature): if the running value is exactly 0.00 the new
reading replaces it, otherwise the stored value becomes the mean of the old
value and the new reading. -/
def avgStep (v r : ℚ) : ℚ :=
  if v = 0 then r else (v + r) / 2

/-- The fixed pass count of one acquisition cycle: `while (avgCount < 5)`. -/
def PASSES : ℕ := 5

/-- The calibration mapping applied per channel in `loop()` (line 268):
`((raw - raw_Low[m]) * (ref_High - ref_Low)) / (raw_High[m] - raw_Low[m]) + ref_Low`.
Exact rational arithmetic; on a zero raw span the C float division yields
±inf/NaN while `ℚ` division by zero yields 0 — in both semantics a plain
value, not an error signal. -/
def calMap (st : CalMem) (m : ℕ) (raw : ℚ) : ℚ :=
  ((raw - st.raw_Low m) * (st.ref_High - st.ref_Low)) / (st.raw_High m - st.raw_Low m)
    + st.ref_Low

/-- One scan pass of `loop()`: update every channel's running value with this
pass's readings `p.1`, then the internal-temperature running value with
`p.2`. -/
def scanPass (acc : (ℕ → ℚ) × ℚ) (p : (ℕ → ℚ) × ℚ) : (ℕ → ℚ) × ℚ :=
  (fun m => if m < NUMBER_OF_THERMISTORS then avgStep (acc.1 m) (p.1 m) else acc.1 m,
   avgStep acc.2 p.2)

/-- One invocation of `loop()` (lines 214-280): the running values start at
zero, 5 passes fold in the readings (`passes i` gives pass `i`'s per-channel
readings and internal-temperature reading), then if `calibrated` each
channel's final value is passed through `calMap` — the internal temperature
is not transformed — and the resulting pair is what `publish_data` receives. -/
def loopCycle (st : CalMem) (passes : ℕ → (ℕ → ℚ) × ℚ) : (ℕ → ℚ) × ℚ :=
  let acc := (List.range PASSES).foldl (fun a i => scanPass a (passes i)) (fun _ => 0, 0)
  (if st.calibrated then
      fun m => if m < NUMBER_OF_THERMISTORS then calMap st m (acc.1 m) else acc.1 m
    else acc.1,
   acc.2)

/-- Modelled from the spec: `setup()` and `loop()` are driven by the external
scheduling loop (§4.6 "driven by an external scheduling loop"), which invokes
the acquisition cycle after setup whether or not setup succeeded; nothing in
`loop()` reads `setup_successful`, so the cycle's behaviour is that of
`loopCycle` for either value of the flag. -/
def firmwareCycle (_setupOk : Bool) (st : CalMem) (passes : ℕ → (ℕ → ℚ) × ℚ) :
    (ℕ → ℚ) × ℚ :=
  loopCycle st passes

/-- The running value a single channel (or the internal-temperature
pseudo-channel) holds after folding a list of raw readings, starting from the
zeroed cycle-local state. -/
def runningValue (rs : List ℚ) : ℚ :=
  rs.foldl avgStep 0

/-- Channel `m`'s final running value after the 5 passes of one cycle. -/
def chanRun (passes : ℕ → (ℕ → ℚ) × ℚ) (m : ℕ) : ℚ :=
  ((List.range PASSES).map (fun i => (passes i).1 m)).foldl avgStep 0

/-- The internal-temperature final running value after the 5 passes. -/
def intRun (passes : ℕ → (ℕ → ℚ) × ℚ) : ℚ :=
  ((List.range PASSES).map (fun i => (passes i).2)).foldl avgStep 0

/-- Spec recurrence folded from an explicit first value: feeds each later
reading through `value := (value + raw) / 2`. -/
def specFrom (v : ℚ) (rs : List ℚ) : ℚ :=
  rs.foldl (fun a x => (a + x) / 2) v

/-- Modelled from the spec: the Sample Averager recurrence of §4.3,
`value(1) = raw(1)` and `value(p) = (value(p-1) + raw(p)) / 2` for `p > 1`
(0 for an empty reading sequence). -/
def specValue : List ℚ → ℚ
  | [] => 0
  | r :: rs => specFrom r rs

/-! ### EEPROM trace lemmas -/

lemma wputE_apply_ne (E : ℕ → Cell) (b : ℕ) (q : ℚ) (x : ℕ)
    (h : x < b ∨ b + 3 < x) : wputE E b q x = E x := by
  simp only [wputE]
  rw [if_neg (by omega), if_neg (by omega), if_neg (by omega), if_neg (by omega)]

lemma applyW_untouched (E : ℕ → Cell) (e : WEvent) (x : ℕ) (h : ¬ e.touches x) :
    applyW E e x = E x := by
  cases e with
  | wbyte a b =>
      simp only [WEvent.touches] at h
      simp [applyW, eewrite, h]
  | wput a q =>
      simp only [WEvent.touches] at h
      show wputE E a q x = E x
      exact wputE_apply_ne E a q x (by omega)

lemma applyTrace_untouched (tr : List WEvent) :
    ∀ (E : ℕ → Cell) (x : ℕ), (∀ e ∈ tr, ¬ e.touches x) → applyTrace E tr x = E x := by
  induction tr with
  | nil => intro E x _; rfl
  | cons e tr ih =>
      intro E x h
      have h1 : applyTrace E (e :: tr) = applyTrace (applyW E e) tr := rfl
      rw [h1, ih (applyW E e) x (fun e' he' => h e' (List.mem_cons_of_mem _ he')),
        applyW_untouched E e x (h e (List.mem_cons_self _ _))]

lemma applyTrace_append (E : ℕ → Cell) (l1 l2 : List WEvent) :
    applyTrace E (l1 ++ l2) = applyTrace (applyTrace E l1) l2 := by
  simp [applyTrace, List.foldl_append]

lemma eeget_congr (F G : ℕ → Cell) (a : ℕ)
    (h : ∀ x, a ≤ x → x < a + 4 → F x = G x) : eeget F a = eeget G a := by
  unfold eeget
  rw [h a (by omega) (by omega), h (a + 1) (by omega) (by omega),
    h (a + 2) (by omega) (by omega), h (a + 3) (by omega) (by omega)]

lemma eeget_wputE (E : ℕ → Cell) (a : ℕ) (q : ℚ) : eeget (wputE E a q) a = q := by
  have h1 : wputE E a q a = Cell.fbyte q 0 := by
    simp [wputE]
  have h2 : wputE E a q (a + 1) = Cell.fbyte q 1 := by
    simp only [wputE]; rw [if_neg (by omega)]; simp
  have h3 : wputE E a q (a + 2) = Cell.fbyte q 2 := by
    simp only [wputE]; rw [if_neg (by omega), if_neg (by omega)]; simp
  have h4 : wputE E a q (a + 3) = Cell.fbyte q 3 := by
    simp only [wputE]
    rw [if_neg (by omega), if_neg (by omega), if_neg (by omega)]; simp
  unfold eeget
  rw [h1, h2, h3, h4]
  simp

lemma eeget_wputE_out (E : ℕ → Cell) (a b : ℕ) (q : ℚ)
    (h : a + 3 < b ∨ b + 3 < a) : eeget (wputE E b q) a = eeget E a :=
  eeget_congr _ _ _ (fun x hx1 hx2 => wputE_apply_ne E b q x (by omega))

/-- The per-channel `put` pairs emitted by one run of the `cal_thermistor`
loop from channel `m` on: for each remaining channel `i`, a `put` of `lo i`
at `9 + 8i` and of `hi i` at `13 + 8i`. -/
def segTrace (lo hi : ℕ → ℚ) : ℕ → ℕ → List WEvent
  | _, 0 => []
  | m, f + 1 =>
      WEvent.wput (9 + 8 * m) (lo m) :: WEvent.wput (13 + 8 * m) (hi m) ::
        segTrace lo hi (m + 1) f

lemma mem_segTrace (lo hi : ℕ → ℚ) :
    ∀ (f m : ℕ) (e : WEvent), e ∈ segTrace lo hi m f →
      ∃ i, m ≤ i ∧ i < m + f ∧
        (e = WEvent.wput (9 + 8 * i) (lo i) ∨ e = WEvent.wput (13 + 8 * i) (hi i)) := by
  intro f
  induction f with
  | zero => intro m e he; simp [segTrace] at he
  | succ f ih =>
      intro m e he
      simp only [segTrace, List.mem_cons] at he
      rcases he with h | h | h
      · exact ⟨m, by omega, by omega, Or.inl h⟩
      · exact ⟨m, by omega, by omega, Or.inr h⟩
      · obtain ⟨i, h1, h2, h3⟩ := ih (m + 1) e h
        exact ⟨i, by omega, by omega, h3⟩

lemma segTrace_touches_ge (lo hi : ℕ → ℚ) (f m : ℕ) (e : WEvent) (x : ℕ)
    (he : e ∈ segTrace lo hi m f) (hx : e.touches x) : 9 + 8 * m ≤ x := by
  obtain ⟨i, h1, _, h3 | h3⟩ := mem_segTrace lo hi f m e he <;>
    (subst h3; simp only [WEvent.touches] at hx; omega)

lemma applyTrace_segTrace_low (lo hi : ℕ → ℚ) :
    ∀ (f m : ℕ) (E : ℕ → Cell) (j : ℕ), m ≤ j → j < m + f →
      eeget (applyTrace E (segTrace lo hi m f)) (9 + 8 * j) = lo j := by
  intro f
  induction f with
  | zero => intro m E j h1 h2; omega
  | succ f ih =>
      intro m E j h1 h2
      have hsplit : applyTrace E (segTrace lo hi m (f + 1)) =
          applyTrace (wputE (wputE E (9 + 8 * m) (lo m)) (13 + 8 * m) (hi m))
            (segTrace lo hi (m + 1) f) := rfl
      rw [hsplit]
      by_cases hj : j = m
      · subst hj
        have hcell : ∀ x, 9 + 8 * j ≤ x → x < 9 + 8 * j + 4 →
            applyTrace (wputE (wputE E (9 + 8 * j) (lo j)) (13 + 8 * j) (hi j))
              (segTrace lo hi (j + 1) f) x =
            (wputE (wputE E (9 + 8 * j) (lo j)) (13 + 8 * j) (hi j)) x := by
          intro x hx1 hx2
          exact applyTrace_untouched _ _ x
            (fun e he ht => by have := segTrace_touches_ge lo hi f (j + 1) e x he ht; omega)
        rw [eeget_congr _ _ _ hcell,
          eeget_congr _ _ _ (fun x hx1 hx2 =>
            wputE_apply_ne (wputE E (9 + 8 * j) (lo j)) (13 + 8 * j) (hi j) x (by omega)),
          eeget_wputE]
      · exact ih (m + 1) _ j (by omega) (by omega)

lemma applyTrace_segTrace_high (lo hi : ℕ → ℚ) :
    ∀ (f m : ℕ) (E : ℕ → Cell) (j : ℕ), m ≤ j → j < m + f →
      eeget (applyTrace E (segTrace lo hi m f)) (13 + 8 * j) = hi j := by
  intro f
  induction f with
  | zero => intro m E j h1 h2; omega
  | succ f ih =>
      intro m E j h1 h2
      have hsplit : applyTrace E (segTrace lo hi m (f + 1)) =
          applyTrace (wputE (wputE E (9 + 8 * m) (lo m)) (13 + 8 * m) (hi m))
            (segTrace lo hi (m + 1) f) := rfl
      rw [hsplit]
      by_cases hj : j = m
      · subst hj
        have hcell : ∀ x, 13 + 8 * j ≤ x → x < 13 + 8 * j + 4 →
            applyTrace (wputE (wputE E (9 + 8 * j) (lo j)) (13 + 8 * j) (hi j))
              (segTrace lo hi (j + 1) f) x =
            (wputE (wputE E (9 + 8 * j) (lo j)) (13 + 8 * j) (hi j)) x := by
          intro x hx1 hx2
          exact applyTrace_untouched _ _ x
            (fun e he ht => by have := segTrace_touches_ge lo hi f (j + 1) e x he ht; omega)
        rw [eeget_congr _ _ _ hcell, eeget_wputE]
      · exact ih (m + 1) _ j (by omega) (by omega)

lemma applyTrace_segTrace_below (lo hi : ℕ → ℚ) (f m : ℕ) (E : ℕ → Cell) (x : ℕ)
    (hx : x < 9 + 8 * m) : applyTrace E (segTrace lo hi m f) x = E x :=
  applyTrace_untouched _ _ x
    (fun e he ht => by have := segTrace_touches_ge lo hi f m e x he ht; omega)

/-! ### Closed forms for the calibration loop -/

lemma calLoop2_fields (t : ℚ) (raws : ℕ → ℚ) :
    ∀ (f m : ℕ) (st : CalMem) (tr : List WEvent), 1 ≤ m →
      calLoop t 2 raws st m (9 + 8 * m) tr f =
        ({ st with
            ref_High := if f = 0 then st.ref_High else t,
            raw_High := fun j => if m ≤ j ∧ j < m + f then raws j else st.raw_High j },
         9 + 8 * (m + f),
         tr ++ segTrace st.raw_Low raws m f) := by
  intro f
  induction f with
  | zero =>
      intro m st tr _
      simp only [calLoop, segTrace, List.append_nil, Nat.add_zero, if_true]
      have h1 : (fun j => if m ≤ j ∧ j < m then raws j else st.raw_High j) =
          st.raw_High := by
        funext j; rw [if_neg (by omega)]
      rw [h1]
  | succ f ih =>
      intro m st tr hm
      have hstep : calLoop t 2 raws st m (9 + 8 * m) tr (f + 1) =
          calLoop t 2 raws
            { st with ref_High := t,
                      raw_High := fun j => if j = m then raws m else st.raw_High j }
            (m + 1) (9 + 8 * (m + 1))
            (tr ++ [WEvent.wput (9 + 8 * m) (st.raw_Low m),
                    WEvent.wput (13 + 8 * m) (raws m)]) f := by
        conv_lhs => rw [calLoop]
        norm_num
        rw [if_neg (by omega)]
        norm_num
        rw [show 9 + 8 * m + 8 = 9 + 8 * (m + 1) by omega,
          show 9 + 8 * m + 4 = 13 + 8 * m by omega]
      rw [hstep, ih (m + 1) _ _ (by omega)]
      rw [show m + 1 + f = m + (f + 1) by omega]
      have hhigh : (fun j => if m + 1 ≤ j ∧ j < m + (f + 1) then raws j
            else if j = m then raws m else st.raw_High j) =
          (fun j => if m ≤ j ∧ j < m + (f + 1) then raws j else st.raw_High j) := by
        funext j
        split_ifs <;> first | rfl | (exfalso; omega) | simp_all
      have htr : (tr ++ [WEvent.wput (9 + 8 * m) (st.raw_Low m),
            WEvent.wput (13 + 8 * m) (raws m)]) ++ segTrace st.raw_Low raws (m + 1) f =
          tr ++ segTrace st.raw_Low raws m (f + 1) := by
        rw [List.append_assoc]; rfl
      rw [hhigh, htr, if_neg (Nat.succ_ne_zero f), ite_self]

lemma calLoop1_fields (t : ℚ) (raws : ℕ → ℚ) :
    ∀ (f m : ℕ) (st : CalMem) (tr : List WEvent), 1 ≤ m →
      calLoop t 1 raws st m (9 + 8 * m) tr f =
        ({ st with
            ref_Low := if f = 0 then st.ref_Low else t,
            raw_Low := fun j => if m ≤ j ∧ j < m + f then raws j else st.raw_Low j },
         9 + 8 * (m + f),
         tr ++ segTrace raws st.raw_High m f) := by
  intro f
  induction f with
  | zero =>
      intro m st tr _
      simp only [calLoop, segTrace, List.append_nil, Nat.add_zero, if_true]
      have h1 : (fun j => if m ≤ j ∧ j < m then raws j else st.raw_Low j) =
          st.raw_Low := by
        funext j; rw [if_neg (by omega)]
      rw [h1]
  | succ f ih =>
      intro m st tr hm
      have hstep : calLoop t 1 raws st m (9 + 8 * m) tr (f + 1) =
          calLoop t 1 raws
            { st with ref_Low := t,
                      raw_Low := fun j => if j = m then raws m else st.raw_Low j }
            (m + 1) (9 + 8 * (m + 1))
            (tr ++ [WEvent.wput (9 + 8 * m) (raws m),
                    WEvent.wput (13 + 8 * m) (st.raw_High m)]) f := by
        conv_lhs => rw [calLoop]
        norm_num
        rw [if_neg (by omega)]
        norm_num
        rw [show 9 + 8 * m + 8 = 9 + 8 * (m + 1) by omega,
          show 9 + 8 * m + 4 = 13 + 8 * m by omega]
      rw [hstep, ih (m + 1) _ _ (by omega)]
      rw [show m + 1 + f = m + (f + 1) by omega]
      have hlow : (fun j => if m + 1 ≤ j ∧ j < m + (f + 1) then raws j
            else if j = m then raws m else st.raw_Low j) =
          (fun j => if m ≤ j ∧ j < m + (f + 1) then raws j else st.raw_Low j) := by
        funext j
        split_ifs <;> first | rfl | (exfalso; omega) | simp_all
      have htr : (tr ++ [WEvent.wput (9 + 8 * m) (raws m),
            WEvent.wput (13 + 8 * m) (st.raw_High m)]) ++ segTrace raws st.raw_High (m + 1) f =
          tr ++ segTrace raws st.raw_High m (f + 1) := by
        rw [List.append_assoc]; rfl
      rw [hlow, htr, if_neg (Nat.succ_ne_zero f), ite_self]

lemma calLoop2_first (t : ℚ) (raws : ℕ → ℚ) (st : CalMem) (f : ℕ) :
    calLoop t 2 raws st 0 1 [] (f + 1) =
      calLoop t 2 raws
        { st with ref_High := t,
                  raw_High := fun j => if j = 0 then raws 0 else st.raw_High j }
        1 (9 + 8 * 1)
        [WEvent.wput 1 st.ref_Low, WEvent.wput 5 t,
         WEvent.wput 9 (st.raw_Low 0), WEvent.wput 13 (raws 0)] f := by
  conv_lhs => rw [calLoop]
  norm_num

lemma calLoop1_first (t : ℚ) (raws : ℕ → ℚ) (st : CalMem) (f : ℕ) :
    calLoop t 1 raws st 0 1 [] (f + 1) =
      calLoop t 1 raws
        { st with ref_Low := t,
                  raw_Low := fun j => if j = 0 then raws 0 else st.raw_Low j }
        1 (9 + 8 * 1)
        [WEvent.wput 1 t, WEvent.wput 5 st.ref_High,
         WEvent.wput 9 (raws 0), WEvent.wput 13 (st.raw_High 0)] f := by
  conv_lhs => rw [calLoop]
  norm_num

lemma cal_thermistor_two (st : CalMem) (t : ℚ) (raws : ℕ → ℚ) :
    cal_thermistor st t 2 raws =
      ({ st with ref_High := t,
                 raw_High := fun j =>
                   if j < NUMBER_OF_THERMISTORS then raws j else st.raw_High j,
                 calibrated := true },
       ([WEvent.wput 1 st.ref_Low, WEvent.wput 5 t] ++
          segTrace st.raw_Low raws 0 NUMBER_OF_THERMISTORS) ++ [WEvent.wbyte 0 1],
       true) := by
  have hN : NUMBER_OF_THERMISTORS = 31 + 1 := by norm_num [NUMBER_OF_THERMISTORS]
  simp only [cal_thermistor]
  simp only [if_true]
  rw [hN, calLoop2_first t raws st 31,
    calLoop2_fields t raws 31 1 _ _ (by norm_num)]
  refine congrArg₂ Prod.mk ?_ (congrArg₂ Prod.mk ?_ rfl)
  · refine CalMem.ext rfl rfl rfl ?_ rfl
    funext j
    show (if 1 ≤ j ∧ j < 1 + 31 then raws j
        else if j = 0 then raws 0 else st.raw_High j) =
      (if j < 31 + 1 then raws j else st.raw_High j)
    split_ifs <;> first | rfl | (exfalso; omega) | simp_all
  · rfl

lemma cal_thermistor_one (st : CalMem) (t : ℚ) (raws : ℕ → ℚ) :
    cal_thermistor st t 1 raws =
      ({ st with ref_Low := t,
                 raw_Low := fun j =>
                   if j < NUMBER_OF_THERMISTORS then raws j else st.raw_Low j },
       [WEvent.wput 1 t, WEvent.wput 5 st.ref_High] ++
          segTrace raws st.raw_High 0 NUMBER_OF_THERMISTORS,
       false) := by
  have hN : NUMBER_OF_THERMISTORS = 31 + 1 := by norm_num [NUMBER_OF_THERMISTORS]
  simp only [cal_thermistor]
  rw [hN, calLoop1_first t raws st 31,
    calLoop1_fields t raws 31 1 _ _ (by norm_num)]
  refine congrArg₂ Prod.mk ?_ (congrArg₂ Prod.mk ?_ rfl)
  · refine CalMem.ext rfl rfl ?_ rfl rfl
    funext j
    show (if 1 ≤ j ∧ j < 1 + 31 then raws j
        else if j = 0 then raws 0 else st.raw_Low j) =
      (if j < 31 + 1 then raws j else st.raw_Low j)
    split_ifs <;> first | rfl | (exfalso; omega) | simp_all
  · rfl

/-! ### EEPROM contents after a point-2 calibration trace -/

lemma cal2trace_facts (rl t : ℚ) (lo hi : ℕ → ℚ) (E : ℕ → Cell) :
    eeread (applyTrace E (([WEvent.wput 1 rl, WEvent.wput 5 t] ++
        segTrace lo hi 0 NUMBER_OF_THERMISTORS) ++ [WEvent.wbyte 0 1])) 0 = 1 ∧
    eeget (applyTrace E (([WEvent.wput 1 rl, WEvent.wput 5 t] ++
        segTrace lo hi 0 NUMBER_OF_THERMISTORS) ++ [WEvent.wbyte 0 1])) 1 = rl ∧
    eeget (applyTrace E (([WEvent.wput 1 rl, WEvent.wput 5 t] ++
        segTrace lo hi 0 NUMBER_OF_THERMISTORS) ++ [WEvent.wbyte 0 1])) 5 = t ∧
    ∀ j, j < NUMBER_OF_THERMISTORS →
      eeget (applyTrace E (([WEvent.wput 1 rl, WEvent.wput 5 t] ++
          segTrace lo hi 0 NUMBER_OF_THERMISTORS) ++ [WEvent.wbyte 0 1])) (9 + 8 * j) = lo j ∧
      eeget (applyTrace E (([WEvent.wput 1 rl, WEvent.wput 5 t] ++
          segTrace lo hi 0 NUMBER_OF_THERMISTORS) ++ [WEvent.wbyte 0 1])) (13 + 8 * j) = hi j := by
  have hB : applyTrace E (([WEvent.wput 1 rl, WEvent.wput 5 t] ++
      segTrace lo hi 0 NUMBER_OF_THERMISTORS) ++ [WEvent.wbyte 0 1]) =
      eewrite (applyTrace (wputE (wputE E 1 rl) 5 t)
        (segTrace lo hi 0 NUMBER_OF_THERMISTORS)) 0 1 := by
    rw [applyTrace_append, applyTrace_append]
    rfl
  rw [hB]
  have hG : ∀ a, 1 ≤ a →
      eeget (eewrite (applyTrace (wputE (wputE E 1 rl) 5 t)
        (segTrace lo hi 0 NUMBER_OF_THERMISTORS)) 0 1) a =
      eeget (applyTrace (wputE (wputE E 1 rl) 5 t)
        (segTrace lo hi 0 NUMBER_OF_THERMISTORS)) a := by
    intro a ha
    apply eeget_congr
    intro x hx1 hx2
    simp only [eewrite]
    rw [if_neg (by omega)]
  refine ⟨?_, ?_, ?_, ?_⟩
  · simp [eeread, eewrite]
  · rw [hG 1 (by omega)]
    rw [eeget_congr _ (wputE (wputE E 1 rl) 5 t) 1 (fun x hx1 hx2 =>
      applyTrace_segTrace_below lo hi NUMBER_OF_THERMISTORS 0 _ x (by omega))]
    rw [eeget_wputE_out _ _ _ _ (by omega), eeget_wputE]
  · rw [hG 5 (by omega)]
    rw [eeget_congr _ (wputE (wputE E 1 rl) 5 t) 5 (fun x hx1 hx2 =>
      applyTrace_segTrace_below lo hi NUMBER_OF_THERMISTORS 0 _ x (by omega))]
    rw [eeget_wputE]
  · intro j hj
    constructor
    · rw [hG (9 + 8 * j) (by omega)]
      exact applyTrace_segTrace_low lo hi NUMBER_OF_THERMISTORS 0 _ j (by omega) (by omega)
    · rw [hG (13 + 8 * j) (by omega)]
      exact applyTrace_segTrace_high lo hi NUMBER_OF_THERMISTORS 0 _ j (by omega) (by omega)

/-! ### The calibrated-flag byte across calibration traces -/

lemma cal1trace_no_flag (st : CalMem) (t : ℚ) (raws : ℕ → ℚ) :
    ∀ e ∈ (cal_thermistor st t 1 raws).2.1, ¬ e.touches 0 := by
  rw [cal_thermistor_one]
  intro e he
  simp only [List.mem_append, List.mem_cons, List.not_mem_nil, or_false] at he
  rcases he with (h | h) | h
  · subst h; simp only [WEvent.touches]; omega
  · subst h; simp only [WEvent.touches]; omega
  · intro ht
    have := segTrace_touches_ge raws st.raw_High NUMBER_OF_THERMISTORS 0 e 0 h ht
    omega

lemma cal2trace_no_flag_dropLast (st : CalMem) (t : ℚ) (raws : ℕ → ℚ) :
    (cal_thermistor st t 2 raws).2.1 =
      ((cal_thermistor st t 2 raws).2.1).dropLast ++ [WEvent.wbyte 0 1] ∧
    ∀ e ∈ ((cal_thermistor st t 2 raws).2.1).dropLast, ¬ e.touches 0 := by
  rw [cal_thermistor_two]
  have hd : (([WEvent.wput 1 st.ref_Low, WEvent.wput 5 t] ++
      segTrace st.raw_Low raws 0 NUMBER_OF_THERMISTORS) ++ [WEvent.wbyte 0 1]).dropLast =
      [WEvent.wput 1 st.ref_Low, WEvent.wput 5 t] ++
        segTrace st.raw_Low raws 0 NUMBER_OF_THERMISTORS := by
    rw [List.dropLast_concat]
  constructor
  · rw [hd]
  · rw [hd]
    intro e he
    simp only [List.mem_append, List.mem_cons, List.not_mem_nil, or_false] at he
    rcases he with (h | h) | h
    · subst h; simp only [WEvent.touches]; omega
    · subst h; simp only [WEvent.touches]; omega
    · intro ht
      have := segTrace_touches_ge st.raw_Low raws NUMBER_OF_THERMISTORS 0 e 0 h ht
      omega

lemma eeread0_take (tr : List WEvent) (h : ∀ e ∈ tr, ¬ e.touches 0)
    (E : ℕ → Cell) (n : ℕ) :
    eeread (applyTrace E (tr.take n)) 0 = eeread E 0 := by
  have hx : applyTrace E (tr.take n) 0 = E 0 :=
    applyTrace_untouched _ _ 0 (fun e he => h e (List.take_subset n tr he))
  unfold eeread
  rw [hx]

/-! ### Effect of the clear loop -/

lemma clearLoop_untouched :
    ∀ (f : ℕ) (E : ℕ → Cell) (a x : ℕ), (∀ k, k < 2 * f → x ≠ a + 4 * k) →
      clearLoop E a f x = E x := by
  intro f
  induction f with
  | zero => intro E a x _; rfl
  | succ f ih =>
      intro E a x h
      show clearLoop (eewrite (eewrite E a 0) (a + 4) 0) (a + 8) f x = E x
      rw [ih _ _ x (fun k hk => by have := h (k + 2) (by omega); omega)]
      simp only [eewrite]
      rw [if_neg (by have := h 1 (by omega); omega),
        if_neg (by have := h 0 (by omega); omega)]

lemma clearLoop_zeroed :
    ∀ (f : ℕ) (E : ℕ → Cell) (a k : ℕ), k < 2 * f →
      clearLoop E a f (a + 4 * k) = Cell.byte 0 := by
  intro f
  induction f with
  | zero => intro E a k hk; omega
  | succ f ih =>
      intro E a k hk
      show clearLoop (eewrite (eewrite E a 0) (a + 4) 0) (a + 8) f (a + 4 * k) = Cell.byte 0
      by_cases h2 : 2 ≤ k
      · rw [show a + 4 * k = (a + 8) + 4 * (k - 2) by omega]
        exact ih _ _ (k - 2) (by omega)
      · rw [clearLoop_untouched f _ _ _ (fun i hi => by omega)]
        simp only [eewrite]
        rcases (by omega : k = 0 ∨ k = 1) with hk0 | hk1
        · subst hk0
          rw [if_neg (by omega), if_pos (by omega)]
        · subst hk1
          rw [if_pos (by omega)]

/-! ### Averager and acquisition-cycle lemmas -/

lemma foldl_avgStep_spec :
    ∀ (rs : List ℚ) (v : ℚ), (∀ k, k < rs.length → specFrom v (rs.take k) ≠ 0) →
      rs.foldl avgStep v = specFrom v rs := by
  intro rs
  induction rs with
  | nil => intro v _; rfl
  | cons x rs ih =>
      intro v h
      have h0 : v ≠ 0 := by
        have := h 0 (by simp)
        simpa [specFrom] using this
      have hstep : avgStep v x = (v + x) / 2 := by simp [avgStep, h0]
      have hfold : (x :: rs).foldl avgStep v = rs.foldl avgStep ((v + x) / 2) := by
        rw [List.foldl_cons, hstep]
      rw [hfold, ih ((v + x) / 2) (fun k hk => by
        have := h (k + 1) (by simpa using Nat.succ_lt_succ hk)
        simpa [specFrom, List.take_succ_cons, List.foldl_cons] using this)]
      simp [specFrom, List.foldl_cons]

lemma foldl_scanPass_fst :
    ∀ (l : List ((ℕ → ℚ) × ℚ)) (acc : (ℕ → ℚ) × ℚ) (m : ℕ),
      m < NUMBER_OF_THERMISTORS →
      (l.foldl scanPass acc).1 m = (l.map (fun p => p.1 m)).foldl avgStep (acc.1 m) := by
  intro l
  induction l with
  | nil => intro acc m _; rfl
  | cons p l ih =>
      intro acc m hm
      rw [List.foldl_cons, List.map_cons, List.foldl_cons, ih _ m hm]
      have : (scanPass acc p).1 m = avgStep (acc.1 m) (p.1 m) := by
        simp [scanPass, hm]
      rw [this]

lemma foldl_scanPass_snd :
    ∀ (l : List ((ℕ → ℚ) × ℚ)) (acc : (ℕ → ℚ) × ℚ),
      (l.foldl scanPass acc).2 = (l.map Prod.snd).foldl avgStep acc.2 := by
  intro l
  induction l with
  | nil => intro acc; rfl
  | cons p l ih =>
      intro acc
      rw [List.foldl_cons, List.map_cons, List.foldl_cons, ih]
      rfl

lemma loopCycle_fst (st : CalMem) (ps : ℕ → (ℕ → ℚ) × ℚ) (m : ℕ)
    (hm : m < NUMBER_OF_THERMISTORS) :
    (loopCycle st ps).1 m =
      if st.calibrated then calMap st m (chanRun ps m) else chanRun ps m := by
  have hacc : ((List.range PASSES).foldl (fun a i => scanPass a (ps i))
      ((fun _ => 0 : ℕ → ℚ), (0 : ℚ))).1 m = chanRun ps m := by
    rw [show (List.range PASSES).foldl (fun a i => scanPass a (ps i))
          ((fun _ => 0 : ℕ → ℚ), (0 : ℚ)) =
        ((List.range PASSES).map ps).foldl scanPass ((fun _ => 0 : ℕ → ℚ), (0 : ℚ)) from
      (List.foldl_map ps scanPass _ _).symm]
    rw [foldl_scanPass_fst _ _ m hm]
    simp [chanRun, List.map_map, Function.comp_def]
  cases hc : st.calibrated with
  | false =>
      simp only [loopCycle, hc, if_false, Bool.false_eq_true]
      exact hacc
  | true =>
      simp only [loopCycle, hc, if_true]
      rw [if_pos hm, hacc]

lemma loopCycle_snd (st : CalMem) (ps : ℕ → (ℕ → ℚ) × ℚ) :
    (loopCycle st ps).2 = intRun ps := by
  simp only [loopCycle]
  rw [show (List.range PASSES).foldl (fun a i => scanPass a (ps i))
        ((fun _ => 0 : ℕ → ℚ), (0 : ℚ)) =
      ((List.range PASSES).map ps).foldl scanPass ((fun _ => 0 : ℕ → ℚ), (0 : ℚ)) from
    (List.foldl_map ps scanPass _ _).symm]
  rw [foldl_scanPass_snd]
  simp [intRun, List.map_map, Function.comp_def]

/-! ### Helper facts about clear_cal_data -/

lemma clear_cal_byte0 (st : CalMem) (E : ℕ → Cell) :
    (clear_cal_data st E).2.1 0 = Cell.byte 0 := by
  show clearLoop (eewrite (eewrite (eewrite E 0 0) 1 0) 5 0) 9 NUMBER_OF_THERMISTORS 0 =
    Cell.byte 0
  rw [clearLoop_untouched _ _ _ _ (fun k _ => by omega)]
  simp [eewrite]

lemma clear_cal_byte1 (st : CalMem) (E : ℕ → Cell) :
    (clear_cal_data st E).2.1 1 = Cell.byte 0 := by
  show clearLoop (eewrite (eewrite (eewrite E 0 0) 1 0) 5 0) 9 NUMBER_OF_THERMISTORS 1 =
    Cell.byte 0
  rw [clearLoop_untouched _ _ _ _ (fun k _ => by omega)]
  simp [eewrite]

lemma clear_cal_byte5 (st : CalMem) (E : ℕ → Cell) :
    (clear_cal_data st E).2.1 5 = Cell.byte 0 := by
  show clearLoop (eewrite (eewrite (eewrite E 0 0) 1 0) 5 0) 9 NUMBER_OF_THERMISTORS 5 =
    Cell.byte 0
  rw [clearLoop_untouched _ _ _ _ (fun k _ => by omega)]
  simp [eewrite]

lemma clear_cal_fieldbyte (st : CalMem) (E : ℕ → Cell) (k : ℕ)
    (hk : k < 2 * NUMBER_OF_THERMISTORS) :
    (clear_cal_data st E).2.1 (9 + 4 * k) = Cell.byte 0 := by
  show clearLoop (eewrite (eewrite (eewrite E 0 0) 1 0) 5 0) 9 NUMBER_OF_THERMISTORS
    (9 + 4 * k) = Cell.byte 0
  exact clearLoop_zeroed NUMBER_OF_THERMISTORS _ 9 k hk

lemma clear_cal_other (st : CalMem) (E : ℕ → Cell) (x : ℕ)
    (h0 : x ≠ 0) (h1 : x ≠ 1) (h5 : x ≠ 5)
    (hk : ∀ k, k < 2 * NUMBER_OF_THERMISTORS → x ≠ 9 + 4 * k) :
    (clear_cal_data st E).2.1 x = E x := by
  show clearLoop (eewrite (eewrite (eewrite E 0 0) 1 0) 5 0) 9 NUMBER_OF_THERMISTORS x = E x
  rw [clearLoop_untouched _ _ _ _ hk]
  simp only [eewrite]
  rw [if_neg h5, if_neg h1, if_neg h0]

/-! ### Claim theorems -/

/-- C1, counterexample: the Sample Averager recurrence of the spec does NOT
hold for every sequence of raw readings.  For readings `[0, 4]` the code's
zero test makes pass 2 replace the running value (`runningValue [0,4] = 4`),
while the spec recurrence gives `value(2) = (0 + 4)/2 = 2`. -/
theorem c1_spec_recurrence_cex :
    runningValue [0, 4] = 4 ∧ specValue [0, 4] = 2 ∧ (4 : ℚ) ≠ 2 := by
  refine ⟨by norm_num [runningValue, avgStep], by norm_num [specValue, specFrom], by norm_num⟩

/-- C1, amended: for every sequence of raw readings in which no intermediate
running value is exactly 0 (in particular `raw(1) ≠ 0`), one acquisition
cycle's running value satisfies the exact spec recurrence
`value(1) = raw(1)`, `value(p) = (value(p-1) + raw(p))/2`; and in the N=2,
P=2 scenario channel 0 (readings 10 then 10) ends at 10 and channel 1
(readings 20 then 40) ends at 30. -/
theorem c1_running_update_amended (r : ℚ) (rs : List ℚ)
    (h : ∀ k, k < rs.length → specValue (r :: rs.take k) ≠ 0) :
    runningValue (r :: rs) = specValue (r :: rs) ∧
    runningValue [10, 10] = 10 ∧ runningValue [20, 40] = 30 := by
  refine ⟨?_, by norm_num [runningValue, avgStep], by norm_num [runningValue, avgStep]⟩
  have h0 : runningValue (r :: rs) = rs.foldl avgStep r := by
    simp [runningValue, List.foldl_cons, avgStep]
  rw [h0, show specValue (r :: rs) = specFrom r rs from rfl]
  exact foldl_avgStep_spec rs r (fun k hk => h k hk)

/-- C1 witness: the amended theorem applied to the scenario readings of
channel 0. -/
theorem c1_running_update_amended_w :
    runningValue [10, 10] = 10 ∧ runningValue [20, 40] = 30 :=
  (c1_running_update_amended 10 [10] (fun k hk => by
    have hk0 : k = 0 := by simp at hk; omega
    subst hk0
    norm_num [specValue, specFrom])).2

/-- C10: the running update is implemented as a test of the current value
against zero — whenever the running value accumulated so far is exactly 0
(including before the first pass, since the value starts zeroed), the next
reading replaces the value instead of being averaged into it; the
internal-temperature pseudo-channel folds its readings through the same
`avgStep` (see `loopCycle_snd`). -/
theorem c10_zero_test_update (rs : List ℚ) (r : ℚ) (h : runningValue rs = 0) :
    runningValue (rs ++ [r]) = r := by
  unfold runningValue at h ⊢
  rw [List.foldl_append, h]
  simp [avgStep]

/-- C10 witness: after readings `[4, -4]` the running value is exactly 0 at a
pass index greater than 1, and the next reading 6 replaces it. -/
theorem c10_zero_test_update_w : runningValue ([4, -4] ++ [6]) = 6 :=
  c10_zero_test_update [4, -4] 6 (by norm_num [runningValue, avgStep])

/-- C3 (code divergence): for a channel whose two calibration points read the
same raw value (zero raw span), the code still applies the mapping with a
zero denominator and publishes the outcome as an ordinary number — there is
no `CalibrationDegenerate` signal anywhere in the program.  Concretely,
calibrating point 1 at (20, raw 100) and point 2 at (80, raw 100) yields a
calibrated state with `raw_High[0] = raw_Low[0]`, and a cycle of raw
readings 150 publishes a plain value for channel 0 (in C float arithmetic
the division by zero produces ±inf/NaN, silently propagated; in this exact
model division by zero is total and the published value is 20). -/
theorem c3_zero_span_silent_value :
    ((cal_thermistor (cal_thermistor initMem 20 1 (fun _ => 100)).1
        80 2 (fun _ => 100)).1).calibrated = true ∧
    ((cal_thermistor (cal_thermistor initMem 20 1 (fun _ => 100)).1
        80 2 (fun _ => 100)).1).raw_High 0 =
      ((cal_thermistor (cal_thermistor initMem 20 1 (fun _ => 100)).1
        80 2 (fun _ => 100)).1).raw_Low 0 ∧
    (loopCycle ((cal_thermistor (cal_thermistor initMem 20 1 (fun _ => 100)).1
        80 2 (fun _ => 100)).1) (fun _ => (fun _ => 150, 150))).1 0 = 20 := by
  refine ⟨rfl, rfl, ?_⟩
  have hrun : chanRun (fun _ => ((fun _ => 150 : ℕ → ℚ), (150 : ℚ))) 0 = 150 := by
    norm_num [chanRun, PASSES, List.range_succ, avgStep]
  rw [loopCycle_fst _ _ 0 (by norm_num [NUMBER_OF_THERMISTORS]),
    if_pos (show ((cal_thermistor (cal_thermistor initMem 20 1 (fun _ => 100)).1
      80 2 (fun _ => 100)).1).calibrated = true from rfl), hrun]
  show ((150 - (100 : ℚ)) * (80 - 20)) / (100 - 100) + 20 = 20
  norm_num

/-- C9 (code divergence): `loop()` never reads `setup_successful`, and the
scheduling loop invokes it whether or not the peripheral bring-up succeeded,
so a failed setup does not prevent scan passes or publication: the cycle's
published output is identical for a failed and a successful setup, and with
all four initialisers reporting anything, constant readings 7 are scanned
and published. -/
theorem c9_failed_setup_still_publishes :
    setup_successful false true true true = false ∧
    (∀ (b1 b2 : Bool) (st : CalMem) (ps : ℕ → (ℕ → ℚ) × ℚ),
      firmwareCycle b1 st ps = firmwareCycle b2 st ps) ∧
    (firmwareCycle (setup_successful false true true true) initMem
      (fun _ => (fun _ => 7, 7))).2 = 7 := by
  refine ⟨rfl, fun b1 b2 st ps => rfl, ?_⟩
  rw [show (firmwareCycle (setup_successful false true true true) initMem
      (fun _ => ((fun _ => 7 : ℕ → ℚ), (7 : ℚ)))).2 =
    intRun (fun _ => ((fun _ => 7 : ℕ → ℚ), (7 : ℚ))) from loopCycle_snd initMem _]
  norm_num [intRun, PASSES, List.range_succ, avgStep]

/-- C4, counterexample: `clear_cal_data` clears each persisted float field
with a single-byte `EEPROM.write`, so only the first byte of each 4-byte
field is zeroed.  Starting from an EEPROM holding 7 in every byte, address 2
(the second byte of the persisted `ref_Low` field at addresses 1..4) still
holds 7 after the clear command. -/
theorem c4_clear_partial_byte_cex :
    (clear_cal_data initMem (fun _ => Cell.byte 7)).2.1 2 = Cell.byte 7 ∧
    Cell.byte 7 ≠ Cell.byte 0 := by
  refine ⟨by decide, by decide⟩

/-- C4, amended: the clear command zeroes the persisted flag byte (address
0) and the FIRST byte of each persisted numeric field (addresses 1, 5 and
`9 + 4k` for the 64 per-channel fields) — the remaining three bytes of every
4-byte float field are left unchanged — zeroes every in-memory calibration
field, leaves the system uncalibrated (in-memory `calibrated = false`), and
returns true.  The persisted state still loads as all-zero because `load`
trusts only the flag byte. -/
theorem c4_clear_amended (st : CalMem) (E : ℕ → Cell) :
    (clear_cal_data st E).1 = initMem ∧
    (clear_cal_data st E).1.calibrated = false ∧
    (clear_cal_data st E).2.2 = true ∧
    (clear_cal_data st E).2.1 0 = Cell.byte 0 ∧
    (clear_cal_data st E).2.1 1 = Cell.byte 0 ∧
    (clear_cal_data st E).2.1 5 = Cell.byte 0 ∧
    (∀ k, k < 2 * NUMBER_OF_THERMISTORS →
      (clear_cal_data st E).2.1 (9 + 4 * k) = Cell.byte 0) ∧
    (∀ x, x ≠ 0 → x ≠ 1 → x ≠ 5 →
      (∀ k, k < 2 * NUMBER_OF_THERMISTORS → x ≠ 9 + 4 * k) →
      (clear_cal_data st E).2.1 x = E x) := by
  exact ⟨rfl, rfl, rfl, clear_cal_byte0 st E, clear_cal_byte1 st E, clear_cal_byte5 st E,
    fun k hk => clear_cal_fieldbyte st E k hk,
    fun x h0 h1 h5 hk => clear_cal_other st E x h0 h1 h5 hk⟩

/-- C4 witness: the amended theorem at a concrete EEPROM, first byte of the
first per-channel field. -/
theorem c4_clear_amended_w :
    (clear_cal_data initMem (fun _ => Cell.byte 7)).2.1 (9 + 4 * 0) = Cell.byte 0 :=
  (c4_clear_amended initMem (fun _ => Cell.byte 7)).2.2.2.2.2.2.1 0
    (by norm_num [NUMBER_OF_THERMISTORS])

lemma segTrace_mem_high (lo hi : ℕ → ℚ) :
    ∀ (f m j : ℕ), m ≤ j → j < m + f →
      WEvent.wput (13 + 8 * j) (hi j) ∈ segTrace lo hi m f := by
  intro f
  induction f with
  | zero => intro m j h1 h2; omega
  | succ f ih =>
      intro m j h1 h2
      by_cases hj : j = m
      · subst hj
        simp [segTrace]
      · simp only [segTrace, List.mem_cons]
        exact Or.inr (Or.inr (ih (m + 1) j (by omega) (by omega)))

/-- C2: the persisted calibrated flag (the byte at non-volatile address 0)
is written to 0x01 only as the very last write of `cal_thermistor(_, 2)`,
after the per-channel field writes of all 32 channels; the point-2 command
then returns true and sets the in-memory flag.  `cal_thermistor(_, 1)` never
writes the flag byte at all, returns false and leaves the in-memory flag
unchanged; consequently, after applying any prefix of the calibration
sequence's writes that stops short of the final flag write, the persisted
flag still differs from 0x01, while the full sequence leaves it at 0x01. -/
theorem c2_flag_write_order (st : CalMem) (t1 t2 : ℚ) (r1 r2 : ℕ → ℚ)
    (E : ℕ → Cell) (hE : eeread E 0 ≠ 1) :
    (cal_thermistor st t1 1 r1).2.2 = false ∧
    (cal_thermistor st t1 1 r1).1.calibrated = st.calibrated ∧
    (∀ e ∈ (cal_thermistor st t1 1 r1).2.1, ¬ e.touches 0) ∧
    (cal_thermistor (cal_thermistor st t1 1 r1).1 t2 2 r2).2.2 = true ∧
    (cal_thermistor (cal_thermistor st t1 1 r1).1 t2 2 r2).1.calibrated = true ∧
    (cal_thermistor (cal_thermistor st t1 1 r1).1 t2 2 r2).2.1 =
      ((cal_thermistor (cal_thermistor st t1 1 r1).1 t2 2 r2).2.1).dropLast ++
        [WEvent.wbyte 0 1] ∧
    (∀ j, j < NUMBER_OF_THERMISTORS →
      WEvent.wput (13 + 8 * j) (r2 j) ∈
        ((cal_thermistor (cal_thermistor st t1 1 r1).1 t2 2 r2).2.1).dropLast) ∧
    (∀ n, n ≤ ((cal_thermistor st t1 1 r1).2.1 ++
        ((cal_thermistor (cal_thermistor st t1 1 r1).1 t2 2 r2).2.1).dropLast).length →
      eeread (applyTrace E (((cal_thermistor st t1 1 r1).2.1 ++
        ((cal_thermistor (cal_thermistor st t1 1 r1).1 t2 2 r2).2.1).dropLast).take n))
        0 ≠ 1) ∧
    eeread (applyTrace (applyTrace E (cal_thermistor st t1 1 r1).2.1)
      (cal_thermistor (cal_thermistor st t1 1 r1).1 t2 2 r2).2.1) 0 = 1 := by
  have hno1 := cal1trace_no_flag st t1 r1
  have hno2 := cal2trace_no_flag_dropLast (cal_thermistor st t1 1 r1).1 t2 r2
  refine ⟨?_, ?_, hno1, ?_, ?_, hno2.1, ?_, ?_, ?_⟩
  · rw [cal_thermistor_one]
  · rw [cal_thermistor_one]
  · rw [cal_thermistor_two]
  · rw [cal_thermistor_two]
  · intro j hj
    rw [cal_thermistor_two, List.dropLast_concat]
    refine List.mem_append.2 (Or.inr ?_)
    exact segTrace_mem_high _ r2 NUMBER_OF_THERMISTORS 0 j (by omega) (by omega)
  · intro n _
    rw [eeread0_take _ ?hh E n]
    · exact hE
    case hh =>
      intro e he
      rcases List.mem_append.1 he with h | h
      · exact hno1 e h
      · exact hno2.2 e h
  · rw [cal_thermistor_two]
    exact (cal2trace_facts (cal_thermistor st t1 1 r1).1.ref_Low t2
      (cal_thermistor st t1 1 r1).1.raw_Low r2 (applyTrace E (cal_thermistor st t1 1 r1).2.1)).1

/-- C2 witness: the theorem applied to a concrete calibration sequence from
the initial state over an all-zero EEPROM; after both commands the persisted
flag byte reads 0x01. -/
theorem c2_flag_write_order_w :
    eeread (applyTrace (applyTrace (fun _ => Cell.byte 0)
        (cal_thermistor initMem 0 1 (fun _ => 0)).2.1)
      (cal_thermistor (cal_thermistor initMem 0 1 (fun _ => 0)).1 1 2
        (fun _ => 0)).2.1) 0 = 1 :=
  (c2_flag_write_order initMem 0 1 (fun _ => 0) (fun _ => 0) (fun _ => Cell.byte 0)
    (by decide)).2.2.2.2.2.2.2.2

lemma load_after_cal2_generic (stX : CalMem) (t2 : ℚ) (r2 : ℕ → ℚ) (F E2 : ℕ → Cell)
    (hE2 : E2 = applyTrace F (([WEvent.wput 1 stX.ref_Low, WEvent.wput 5 t2] ++
        segTrace stX.raw_Low r2 0 NUMBER_OF_THERMISTORS) ++ [WEvent.wbyte 0 1])) :
    (loadCal E2).calibrated = true ∧
    (loadCal E2).ref_Low = stX.ref_Low ∧
    (loadCal E2).ref_High = t2 ∧
    ∀ j, j < NUMBER_OF_THERMISTORS →
      (loadCal E2).raw_Low j = stX.raw_Low j ∧ (loadCal E2).raw_High j = r2 j := by
  obtain ⟨hf, hg1, hg5, hraw⟩ := cal2trace_facts stX.ref_Low t2 stX.raw_Low r2 F
  rw [← hE2] at hf hg1 hg5
  have hraw' : ∀ j, j < NUMBER_OF_THERMISTORS →
      eeget E2 (9 + 8 * j) = stX.raw_Low j ∧ eeget E2 (13 + 8 * j) = r2 j := by
    intro j hj
    rw [hE2]
    exact hraw j hj
  have hL : loadCal E2 =
      { calibrated := true, ref_Low := eeget E2 1, ref_High := eeget E2 5,
        raw_Low := fun m => if m < NUMBER_OF_THERMISTORS then eeget E2 (9 + 8 * m) else 0,
        raw_High := fun m => if m < NUMBER_OF_THERMISTORS then eeget E2 (13 + 8 * m) else 0 } := by
    simp only [loadCal]
    rw [if_pos hf]
  rw [hL]
  refine ⟨rfl, hg1, hg5, fun j hj => ⟨?_, ?_⟩⟩
  · show (if j < NUMBER_OF_THERMISTORS then eeget E2 (9 + 8 * j) else 0) = stX.raw_Low j
    rw [if_pos hj]
    exact (hraw' j hj).1
  · show (if j < NUMBER_OF_THERMISTORS then eeget E2 (13 + 8 * j) else 0) = r2 j
    rw [if_pos hj]
    exact (hraw' j hj).2

/-- C5: the startup load reads the flag byte at address 0 first and treats
only 0x01 as calibrated.  (a) If the flag differs from 0x01 nothing else is
read and the in-memory state is the all-zero `initMem`; (b) in particular
`clear_cal_data` followed by the load yields `calibrated = false` and all
fields zero; (c) after a full two-point calibration from the initial state,
the load over the resulting EEPROM reproduces, field for field (both
reference temperatures and all 32 raw low/high pairs, laid out from address
1), the in-memory state at the moment the flag was set. -/
theorem c5_load_roundtrip (E : ℕ → Cell) (t1 t2 : ℚ) (r1 r2 : ℕ → ℚ)
    (hE : eeread E 0 ≠ 1) :
    loadCal E = initMem ∧
    loadCal (clear_cal_data initMem E).2.1 = initMem ∧
    ((loadCal (applyTrace (applyTrace E (cal_thermistor initMem t1 1 r1).2.1)
        (cal_thermistor (cal_thermistor initMem t1 1 r1).1 t2 2 r2).2.1)).calibrated = true ∧
     (cal_thermistor (cal_thermistor initMem t1 1 r1).1 t2 2 r2).1.calibrated = true ∧
     (loadCal (applyTrace (applyTrace E (cal_thermistor initMem t1 1 r1).2.1)
        (cal_thermistor (cal_thermistor initMem t1 1 r1).1 t2 2 r2).2.1)).ref_Low =
       (cal_thermistor (cal_thermistor initMem t1 1 r1).1 t2 2 r2).1.ref_Low ∧
     (loadCal (applyTrace (applyTrace E (cal_thermistor initMem t1 1 r1).2.1)
        (cal_thermistor (cal_thermistor initMem t1 1 r1).1 t2 2 r2).2.1)).ref_High =
       (cal_thermistor (cal_thermistor initMem t1 1 r1).1 t2 2 r2).1.ref_High ∧
     ∀ j, j < NUMBER_OF_THERMISTORS →
       (loadCal (applyTrace (applyTrace E (cal_thermistor initMem t1 1 r1).2.1)
          (cal_thermistor (cal_thermistor initMem t1 1 r1).1 t2 2 r2).2.1)).raw_Low j =
         (cal_thermistor (cal_thermistor initMem t1 1 r1).1 t2 2 r2).1.raw_Low j ∧
       (loadCal (applyTrace (applyTrace E (cal_thermistor initMem t1 1 r1).2.1)
          (cal_thermistor (cal_thermistor initMem t1 1 r1).1 t2 2 r2).2.1)).raw_High j =
         (cal_thermistor (cal_thermistor initMem t1 1 r1).1 t2 2 r2).1.raw_High j) := by
  have h2 := cal_thermistor_two (cal_thermistor initMem t1 1 r1).1 t2 r2
  have hBigE : applyTrace (applyTrace E (cal_thermistor initMem t1 1 r1).2.1)
      (cal_thermistor (cal_thermistor initMem t1 1 r1).1 t2 2 r2).2.1 =
      applyTrace (applyTrace E (cal_thermistor initMem t1 1 r1).2.1)
        (([WEvent.wput 1 (cal_thermistor initMem t1 1 r1).1.ref_Low, WEvent.wput 5 t2] ++
          segTrace (cal_thermistor initMem t1 1 r1).1.raw_Low r2 0 NUMBER_OF_THERMISTORS) ++
          [WEvent.wbyte 0 1]) := by
    rw [h2]
  obtain ⟨hc, hrl, hrh, hraws⟩ := load_after_cal2_generic (cal_thermistor initMem t1 1 r1).1
    t2 r2 (applyTrace E (cal_thermistor initMem t1 1 r1).2.1) _ hBigE
  have hST2rh : ∀ j, j < NUMBER_OF_THERMISTORS →
      (cal_thermistor (cal_thermistor initMem t1 1 r1).1 t2 2 r2).1.raw_High j = r2 j := by
    intro j hj
    rw [h2]
    show (if j < NUMBER_OF_THERMISTORS then r2 j
        else (cal_thermistor initMem t1 1 r1).1.raw_High j) = r2 j
    rw [if_pos hj]
  refine ⟨?_, ?_, hc, ?_, ?_, ?_, fun j hj => ⟨?_, ?_⟩⟩
  · simp only [loadCal]
    rw [if_neg hE]
  · have h2flag : eeread (clear_cal_data initMem E).2.1 0 = 0 := by
      unfold eeread
      rw [clear_cal_byte0 initMem E]
    simp only [loadCal]
    rw [if_neg (by rw [h2flag]; norm_num)]
  · rw [h2]
  · rw [hrl, h2]
  · rw [hrh, h2]
  · rw [(hraws j hj).1, h2]
  · rw [(hraws j hj).2, hST2rh j hj]

/-- C5 witness: a flag byte other than 0x01 loads as the all-zero initial
state. -/
theorem c5_load_roundtrip_w : loadCal (fun _ => Cell.byte 9) = initMem :=
  (c5_load_roundtrip (fun _ => Cell.byte 9) 0 0 (fun _ => 0) (fun _ => 0)
    (by decide)).1

/-- C6: in the calibrated state, every channel's final running value is
transformed before publication by exactly
`physical = ((raw - raw_Low[c]) * (ref_High - ref_Low)) / (raw_High[c] - raw_Low[c]) + ref_Low`;
and after calibrating a channel with (ref 0, raw 100) at point 1 and
(ref 100, raw 200) at point 2, a raw running value of 150 maps to 50. -/
theorem c6_calibrated_mapping (st : CalMem) (ps : ℕ → (ℕ → ℚ) × ℚ) (m : ℕ)
    (hm : m < NUMBER_OF_THERMISTORS) (hcal : st.calibrated = true) :
    (loopCycle st ps).1 m =
      ((chanRun ps m - st.raw_Low m) * (st.ref_High - st.ref_Low)) /
        (st.raw_High m - st.raw_Low m) + st.ref_Low ∧
    calMap ((cal_thermistor (cal_thermistor initMem 0 1 (fun _ => 100)).1
      100 2 (fun _ => 200)).1) 0 150 = 50 := by
  constructor
  · rw [loopCycle_fst st ps m hm, if_pos hcal]
    rfl
  · show ((150 - (100 : ℚ)) * (100 - 0)) / (200 - 100) + 0 = 50
    norm_num

/-- C6 witness: the theorem at the concrete two-point calibration of the
scenario; raw 150 maps to 50. -/
theorem c6_calibrated_mapping_w :
    calMap ((cal_thermistor (cal_thermistor initMem 0 1 (fun _ => 100)).1
      100 2 (fun _ => 200)).1) 0 150 = 50 :=
  (c6_calibrated_mapping ((cal_thermistor (cal_thermistor initMem 0 1 (fun _ => 100)).1
      100 2 (fun _ => 200)).1) (fun _ => ((fun _ => 150 : ℕ → ℚ), 150)) 0
    (by norm_num [NUMBER_OF_THERMISTORS]) rfl).2

/-- C7: calibration round-trip — after point 1 at `(t1, r1)` and point 2 at
`(t2, r2)`, for every channel `c` with a non-zero raw span the stored pairs
are exactly `(t1, r1 c)` and `(t2, r2 c)`, and the mapping sends
`raw_Low[c]` to `ref_Low` and `raw_High[c]` to `ref_High`. -/
theorem c7_cal_roundtrip (t1 t2 : ℚ) (r1 r2 : ℕ → ℚ) (c : ℕ)
    (hc : c < NUMBER_OF_THERMISTORS) (hspan : r2 c ≠ r1 c) :
    (cal_thermistor (cal_thermistor initMem t1 1 r1).1 t2 2 r2).1.ref_Low = t1 ∧
    (cal_thermistor (cal_thermistor initMem t1 1 r1).1 t2 2 r2).1.ref_High = t2 ∧
    (cal_thermistor (cal_thermistor initMem t1 1 r1).1 t2 2 r2).1.raw_Low c = r1 c ∧
    (cal_thermistor (cal_thermistor initMem t1 1 r1).1 t2 2 r2).1.raw_High c = r2 c ∧
    calMap (cal_thermistor (cal_thermistor initMem t1 1 r1).1 t2 2 r2).1 c
      ((cal_thermistor (cal_thermistor initMem t1 1 r1).1 t2 2 r2).1.raw_Low c) = t1 ∧
    calMap (cal_thermistor (cal_thermistor initMem t1 1 r1).1 t2 2 r2).1 c
      ((cal_thermistor (cal_thermistor initMem t1 1 r1).1 t2 2 r2).1.raw_High c) = t2 := by
  have h1 := cal_thermistor_one initMem t1 r1
  have h2 := cal_thermistor_two (cal_thermistor initMem t1 1 r1).1 t2 r2
  have hrefL : (cal_thermistor (cal_thermistor initMem t1 1 r1).1 t2 2 r2).1.ref_Low = t1 := by
    rw [h2]
    show (cal_thermistor initMem t1 1 r1).1.ref_Low = t1
    rw [h1]
  have hrefH : (cal_thermistor (cal_thermistor initMem t1 1 r1).1 t2 2 r2).1.ref_High = t2 := by
    rw [h2]
  have hrawL : (cal_thermistor (cal_thermistor initMem t1 1 r1).1 t2 2 r2).1.raw_Low c = r1 c := by
    rw [h2]
    show (cal_thermistor initMem t1 1 r1).1.raw_Low c = r1 c
    rw [h1]
    show (if c < NUMBER_OF_THERMISTORS then r1 c else initMem.raw_Low c) = r1 c
    rw [if_pos hc]
  have hrawH : (cal_thermistor (cal_thermistor initMem t1 1 r1).1 t2 2 r2).1.raw_High c = r2 c := by
    rw [h2]
    show (if c < NUMBER_OF_THERMISTORS then r2 c
        else (cal_thermistor initMem t1 1 r1).1.raw_High c) = r2 c
    rw [if_pos hc]
  refine ⟨hrefL, hrefH, hrawL, hrawH, ?_, ?_⟩
  · simp only [calMap]
    rw [hrawL, hrawH, hrefL, hrefH, sub_self, zero_mul, zero_div, zero_add]
  · simp only [calMap]
    rw [hrawL, hrawH, hrefL, hrefH]
    have hne : r2 c - r1 c ≠ 0 := sub_ne_zero.2 hspan
    rw [mul_comm, mul_div_assoc, div_self hne, mul_one, sub_add_cancel]

/-- C7 witness: the round-trip at the concrete calibration (0, raw 100) and
(100, raw 200) on channel 0. -/
theorem c7_cal_roundtrip_w :
    calMap (cal_thermistor (cal_thermistor initMem 0 1 (fun _ => 100)).1 100 2
        (fun _ => 200)).1 0
      ((cal_thermistor (cal_thermistor initMem 0 1 (fun _ => 100)).1 100 2
        (fun _ => 200)).1.raw_Low 0) = 0 ∧
    calMap (cal_thermistor (cal_thermistor initMem 0 1 (fun _ => 100)).1 100 2
        (fun _ => 200)).1 0
      ((cal_thermistor (cal_thermistor initMem 0 1 (fun _ => 100)).1 100 2
        (fun _ => 200)).1.raw_High 0) = 100 :=
  ⟨(c7_cal_roundtrip 0 100 (fun _ => 100) (fun _ => 200) 0
      (by norm_num [NUMBER_OF_THERMISTORS]) (by norm_num)).2.2.2.2.1,
   (c7_cal_roundtrip 0 100 (fun _ => 100) (fun _ => 200) 0
      (by norm_num [NUMBER_OF_THERMISTORS]) (by norm_num)).2.2.2.2.2⟩

/-- C8, counterexample: the calibration mapping is NOT applied to the
internal temperature.  In a calibrated state where the mapping is not the
identity (points (10, raw 0) and (20, raw 1)), a cycle of constant readings
3 publishes the raw internal running value 3 unchanged, although the mapping
of every channel sends 3 to 40. -/
theorem c8_internal_not_mapped_cex :
    ((cal_thermistor (cal_thermistor initMem 10 1 (fun _ => 0)).1
        20 2 (fun _ => 1)).1).calibrated = true ∧
    (loopCycle ((cal_thermistor (cal_thermistor initMem 10 1 (fun _ => 0)).1
        20 2 (fun _ => 1)).1) (fun _ => ((fun _ => 3 : ℕ → ℚ), 3))).2 = 3 ∧
    calMap ((cal_thermistor (cal_thermistor initMem 10 1 (fun _ => 0)).1
        20 2 (fun _ => 1)).1) 0 3 = 40 ∧ (3 : ℚ) ≠ 40 := by
  refine ⟨rfl, ?_, ?_, by norm_num⟩
  · rw [loopCycle_snd]
    norm_num [intRun, PASSES, List.range_succ, avgStep]
  · show ((3 - (0 : ℚ)) * (20 - 10)) / (1 - 0) + 10 = 40
    norm_num

/-- C8, amended: one acquisition cycle performs exactly `PASSES = 5` passes;
each pass feeds every one of the 32 channels' running values and the
internal-temperature running value through the same `avgStep` update, so the
final values are per-channel folds of that pass's readings; after the
passes, each CHANNEL's final running value is passed through the calibration
mapping when calibrated and published raw when uncalibrated, while the
internal temperature is delivered to the publish collaborator unmapped in
both cases, as the second component of the published pair. -/
theorem c8_cycle_amended (st : CalMem) (ps : ℕ → (ℕ → ℚ) × ℚ) (m : ℕ)
    (hm : m < NUMBER_OF_THERMISTORS) :
    PASSES = 5 ∧
    (loopCycle st ps).1 m =
      (if st.calibrated then calMap st m (chanRun ps m) else chanRun ps m) ∧
    (loopCycle st ps).2 = intRun ps := by
  exact ⟨rfl, loopCycle_fst st ps m hm, loopCycle_snd st ps⟩

/-- C8 witness: the amended theorem at channel 0 of a concrete uncalibrated
cycle. -/
theorem c8_cycle_amended_w :
    (loopCycle initMem (fun _ => ((fun _ => 7 : ℕ → ℚ), 7))).2 =
      intRun (fun _ => ((fun _ => 7 : ℕ → ℚ), 7)) :=
  (c8_cycle_amended initMem (fun _ => ((fun _ => 7 : ℕ → ℚ), 7)) 0
    (by norm_num [NUMBER_OF_THERMISTORS])).2.2
